import Mathlib

/-!
Verification of the NativePlayer packets manager.

Shallow embedding of `src/player/es_dash_player/packets_manager.cc`
(class `PacketsManager`): the ordered packet buffer, the per-stream
horizon trackers, the seek coordinator and the delivery pacer, together
with theorems settling the specification claims about them.

Times (`Samsung::NaClPlayer::TimeTicks`) are modelled by `ℚ`; the value
`std::numeric_limits<TimeTicks>::max()` used as the initial bound in
`UpdateBuffer` is modelled by `⊤ : WithTop ℚ`.  The driver loops of
`CheckSeekEndConditions` and `AppendPackets` are modelled by structural
recursion on the buffer, the latter with an explicit fuel parameter
because its source loop does not always make progress (see the theorems
about the missing-sink branch).
-/

namespace PacketsManager

/-- Stream kinds the manager handles (`StreamType::Audio`,
`StreamType::Video`). -/
inductive StreamType where
  | Audio : StreamType
  | Video : StreamType
deriving DecidableEq

/-- An elementary stream packet, with the two observations the manager
makes on it: `GetDts()` and `IsKeyFrame()`. -/
structure Packet where
  dts : ℚ
  isKeyFrame : Bool
deriving DecidableEq

/-- An entry of the packet buffer `packets_`: a stream tag together with
the owned packet. -/
structure BufferedEntry where
  type : StreamType
  packet : Packet
deriving DecidableEq

/-- Constant `kAppendPacketsThreshold = 4.0f` seconds: the delivery
lookahead window of `AppendPackets`. -/
def kAppendPacketsThreshold : ℚ := 4

/-- The state of a `PacketsManager` instance: the seeking flag, the two
per-stream seek-segment-resolved flags, the stored video segment start
time, the two per-stream horizons `buffered_packets_timestamp_`, the
ordered packet buffer `packets_` (kept as a list in ascending DTS
order), and the sink registration state of `streams_` (a slot is `true`
when a sink is attached, `false` when the `shared_ptr` is null). -/
structure PMState where
  seeking : Bool
  seekSegmentSet : StreamType → Bool
  seekSegmentVideoTime : ℚ
  bufferedPacketsTimestamp : StreamType → ℚ
  packets : List BufferedEntry
  streams : StreamType → Bool

/-- The state established by the `PacketsManager` constructor (no sinks
attached yet). -/
def initialState : PMState where
  seeking := false
  seekSegmentSet := fun _ => false
  seekSegmentVideoTime := 0
  bufferedPacketsTimestamp := fun _ => 0
  packets := []
  streams := fun _ => false

/-- Insertion into the ordered packet buffer (`packets_.emplace`).  The
buffer is a priority structure ordered by ascending DTS.  Its comparator
is declared in the class header, which is not part of the sources;
modelled from the spec: ordered by ascending decode timestamp, ties
broken arbitrarily but stably (a new entry is placed after existing
entries with the same timestamp). -/
def insertEntry (e : BufferedEntry) : List BufferedEntry → List BufferedEntry
  | [] => [e]
  | x :: xs =>
    if x.packet.dts ≤ e.packet.dts then x :: insertEntry e xs
    else e :: x :: xs

/-- Function `PacketsManager::PrepareForSeek`: drain the buffer, raise the
seeking flag, clear both seek-segment flags, zero the stored video seek
time and both horizons.  The `to_time` argument is unused by the
source. -/
def prepareForSeek (s : PMState) (_toTime : ℚ) : PMState :=
  { s with
    packets := []
    seeking := true
    seekSegmentSet := fun _ => false
    seekSegmentVideoTime := 0
    bufferedPacketsTimestamp := fun _ => 0 }

/-- Function `PacketsManager::OnEsPacket` in the audio/video-packet case: the
packet is rejected when no sink is attached for its stream, or when the
sink reports it is itself seeking (`IsSeeking()`, an external input);
otherwise the stream's horizon is set to the packet's DTS and the packet
is inserted into the buffer.  The `kEndOfStream` and unsupported-message
cases only log and leave the state unchanged. -/
def onEsPacket (s : PMState) (ty : StreamType) (p : Packet)
    (sinkIsSeeking : Bool) : PMState :=
  if s.streams ty = false then s
  else if sinkIsSeeking then s
  else
    { s with
      bufferedPacketsTimestamp :=
        fun t => if t = ty then p.dts else s.bufferedPacketsTimestamp t
      packets := insertEntry ⟨ty, p⟩ s.packets }

/-- Executable comparison `↑a < b` on `WithTop ℚ` (true when `b = ⊤`).
Used wherever the source compares a packet DTS or a horizon against the
possibly-maximal buffered time. -/
def coeLt (a : ℚ) (b : WithTop ℚ) : Bool :=
  WithTop.recTopCoe true (fun q => decide (a < q)) b

/-- Executable comparison `b < ↑a` on `WithTop ℚ` (false when
`b = ⊤`). -/
def ltCoe (b : WithTop ℚ) (a : ℚ) : Bool :=
  WithTop.recTopCoe false (fun q => decide (q < a)) b

/-- The seek-completion test applied to the buffer's top entry in
`CheckSeekEndConditions`: the entry ends the seek when it is a Video
packet (if a Video sink is attached), or an Audio packet (if no Video
sink but an Audio sink is attached), and in either case its keyframe
flag is set. -/
def seekDone (streams : StreamType → Bool) (e : BufferedEntry) : Bool :=
  ((streams StreamType.Video && (e.type == StreamType.Video)) ||
     (!streams StreamType.Video && streams StreamType.Audio &&
       (e.type == StreamType.Audio))) &&
    e.packet.isKeyFrame

/-- The loop of `PacketsManager::CheckSeekEndConditions`, acting on the
buffer (in ascending DTS order).  Returns the remaining buffer and the
value of `seeking_` afterwards, given that `seeking_` was `true` on
entry (the source asserts it).  The loop stops without popping as soon
as the top entry's DTS exceeds `buffered_time`, or as soon as the top
entry ends the seek (then clearing `seeking_`); otherwise it pops the
top entry and continues. -/
def checkSeekEndConditions (streams : StreamType → Bool) (bufferedTime : WithTop ℚ) :
    List BufferedEntry → List BufferedEntry × Bool
  | [] => ([], true)
  | e :: rest =>
    if ltCoe bufferedTime e.packet.dts then (e :: rest, true)
    else if seekDone streams e then (e :: rest, false)
    else checkSeekEndConditions streams bufferedTime rest

/-- The condition of the `AppendPackets` delivery loop on the buffer's
top entry: its DTS is within `kAppendPacketsThreshold` of the playback
position and strictly below `buffered_time`. -/
def shouldAppend (playbackTime : ℚ) (bufferedTime : WithTop ℚ)
    (e : BufferedEntry) : Bool :=
  decide (e.packet.dts - playbackTime < kAppendPacketsThreshold) &&
    coeLt e.packet.dts bufferedTime

/-- The loop of `PacketsManager::AppendPackets`, with an explicit fuel
parameter.  Returns the list of packets delivered to sinks (in order),
the remaining buffer, and whether the fuel ran out while the loop guard
still held.  The source loop, when the top entry satisfies the guard:
if a sink is attached for its stream, pops the entry and hands it to
that sink; otherwise it only logs an error and does NOT pop, so the
loop re-examines the same entry — the fuel-exhaustion flag makes this
lack of progress observable. -/
def appendPacketsLoop (streams : StreamType → Bool) (playbackTime : ℚ)
    (bufferedTime : WithTop ℚ) :
    Nat → List BufferedEntry → List BufferedEntry × List BufferedEntry × Bool
  | _, [] => ([], [], false)
  | fuel, e :: rest =>
    if shouldAppend playbackTime bufferedTime e then
      match fuel with
      | 0 => ([], e :: rest, true)
      | Nat.succ n =>
        if streams e.type then
          let r := appendPacketsLoop streams playbackTime bufferedTime n rest
          (e :: r.1, r.2.1, r.2.2)
        else
          appendPacketsLoop streams playbackTime bufferedTime n (e :: rest)
    else ([], e :: rest, false)

/-- First half of `PacketsManager::UpdateBuffer`: the global buffered
time, starting from `std::numeric_limits<TimeTicks>::max()` (modelled by
`⊤`) and lowered to the Video horizon (if a Video sink is attached) and
then to the Audio horizon (if an Audio sink is attached), whenever the
horizon is smaller. -/
def computeBufferedTime (streams : StreamType → Bool)
    (horizon : StreamType → ℚ) : WithTop ℚ :=
  let bt0 : WithTop ℚ := ⊤
  let bt1 : WithTop ℚ :=
    if streams StreamType.Video && coeLt (horizon StreamType.Video) bt0 then
      (horizon StreamType.Video : WithTop ℚ)
    else bt0
  if streams StreamType.Audio && coeLt (horizon StreamType.Audio) bt1 then
    (horizon StreamType.Audio : WithTop ℚ)
  else bt1

/-- Function `PacketsManager::UpdateBuffer`: compute the global buffered time;
while seeking run the seek-end check; if not (or no longer) seeking run
the delivery loop (with fuel the buffer length, which suffices whenever
every buffered entry's stream has an attached sink); return the new
state, the delivered packets and whether the buffer is still
non-empty. -/
def updateBuffer (s : PMState) (playbackTime : ℚ) :
    PMState × List BufferedEntry × Bool :=
  let bt := computeBufferedTime s.streams s.bufferedPacketsTimestamp
  let afterSeek :=
    if s.seeking then checkSeekEndConditions s.streams bt s.packets
    else (s.packets, s.seeking)
  let afterPace :=
    if afterSeek.2 then ([], afterSeek.1, false)
    else appendPacketsLoop s.streams playbackTime bt afterSeek.1.length afterSeek.1
  ({ s with seeking := afterSeek.2, packets := afterPace.2.1 },
   afterPace.1, !afterPace.2.1.isEmpty)

/-- Function `PacketsManager::OnSeekData`.  The external segment lookup
`StreamManager::SetSegmentToTime` is an input `resolveSegment`
returning (segment start, segment duration).  Returns the new state and
the time that was passed to the Audio sink's `SetSegmentToTime`, when
that lookup was performed (`none` when it was not). -/
def onSeekData (s : PMState) (ty : StreamType) (newTime : ℚ)
    (resolveSegment : StreamType → ℚ → ℚ × ℚ) : PMState × Option ℚ :=
  let branch : Option PMState :=
    if s.streams StreamType.Audio = true ∧ ty = StreamType.Audio then
      some { s with
             seekSegmentSet :=
               fun t => if t = StreamType.Audio then true else s.seekSegmentSet t }
    else if s.streams StreamType.Video = true ∧ ty = StreamType.Video then
      some { s with
             seekSegmentSet :=
               fun t => if t = StreamType.Video then true else s.seekSegmentSet t,
             seekSegmentVideoTime := (resolveSegment StreamType.Video newTime).1 }
    else none
  match branch with
  | none => (s, none)
  | some s1 =>
    let videoSegmentSet := !s1.streams StreamType.Video ||
      s1.seekSegmentSet StreamType.Video
    let audioSegmentSet := s1.seekSegmentSet StreamType.Audio
    if s1.streams StreamType.Audio && audioSegmentSet && videoSegmentSet then
      let seekAudioToTime :=
        if s1.streams StreamType.Video then s1.seekSegmentVideoTime else newTime
      (s1, some seekAudioToTime)
    else (s1, none)

/-- Function `PacketsManager::SetStream`: (re)bind the sink slot of a stream;
`present = false` models storing a null pointer. -/
def setStream (s : PMState) (ty : StreamType) (present : Bool) : PMState :=
  { s with streams := fun t => if t = ty then present else s.streams t }

/-- The manager's externally callable operations, with the external
inputs each one consumes. -/
inductive Op where
  | prepareForSeek (toTime : ℚ) : Op
  | onEsPacket (ty : StreamType) (p : Packet) (sinkIsSeeking : Bool) : Op
  | onSeekData (ty : StreamType) (newTime : ℚ)
      (resolveSegment : StreamType → ℚ → ℚ × ℚ) : Op
  | updateBuffer (playbackTime : ℚ) : Op
  | setStream (ty : StreamType) (present : Bool) : Op

/-- One step of the manager: the new state together with the packets
delivered to sinks during the step (only `UpdateBuffer` ever delivers
packets). -/
def step (s : PMState) (op : Op) : PMState × List BufferedEntry :=
  match op with
  | Op.prepareForSeek t => (prepareForSeek s t, [])
  | Op.onEsPacket ty p b => (onEsPacket s ty p b, [])
  | Op.onSeekData ty t f => ((onSeekData s ty t f).1, [])
  | Op.updateBuffer pt =>
    let r := updateBuffer s pt
    (r.1, r.2.1)
  | Op.setStream ty b => (setStream s ty b, [])

/-- The predicate under which the seek-end loop pops and discards the
top entry and keeps scanning: the entry's DTS does not exceed the
buffered time and the entry does not end the seek. -/
def notDoneYet (streams : StreamType → Bool) (bt : WithTop ℚ)
    (e : BufferedEntry) : Bool :=
  !ltCoe bt e.packet.dts && !seekDone streams e

/-- The value of `seeking_` after the seek-end loop stops, as a function
of the buffer left behind: still seeking exactly when the buffer is
exhausted or its top entry's DTS exceeds the buffered time. -/
def stillSeekingAfter (bt : WithTop ℚ) : List BufferedEntry → Bool
  | [] => true
  | e :: _ => ltCoe bt e.packet.dts

/-- Ascending-DTS ordering between buffer entries (the ordering
invariant of the priority buffer). -/
def dtsLE (a b : BufferedEntry) : Prop :=
  a.packet.dts ≤ b.packet.dts

instance : DecidableRel dtsLE := fun a b =>
  inferInstanceAs (Decidable (a.packet.dts ≤ b.packet.dts))

instance : IsTrans BufferedEntry dtsLE :=
  ⟨fun _ _ _ h1 h2 => le_trans h1 h2⟩

/-- A finite buffered-time bound (the coercion of a rational into
`WithTop ℚ`), used to state concrete scenarios unambiguously. -/
def finiteTime (q : ℚ) : WithTop ℚ := (q : WithTop ℚ)

/-- Sink assignment with only an Audio sink attached. -/
def audioOnlyStreams : StreamType → Bool
  | StreamType.Audio => true
  | StreamType.Video => false

/-- Sink assignment with both sinks attached. -/
def bothStreams : StreamType → Bool := fun _ => true

/-- Sink assignment with only a Video sink attached. -/
def videoOnlyStreams : StreamType → Bool
  | StreamType.Audio => false
  | StreamType.Video => true

/-- The buffer of the spec's seek scenario — Video packets at DTS
1.0 (keyframe), 1.5, 2.0 (keyframe) and Audio packets at DTS 1.0, 1.5,
2.0 — with the Video entry ordered before the Audio entry at each tied
timestamp. -/
def c4BufferVideoFirst : List BufferedEntry :=
  [⟨StreamType.Video, ⟨1, true⟩⟩, ⟨StreamType.Audio, ⟨1, true⟩⟩,
   ⟨StreamType.Video, ⟨3/2, false⟩⟩, ⟨StreamType.Audio, ⟨3/2, true⟩⟩,
   ⟨StreamType.Video, ⟨2, true⟩⟩, ⟨StreamType.Audio, ⟨2, true⟩⟩]

/-- The buffer of the spec's seek scenario with the Audio entry ordered
before the Video entry at each tied timestamp. -/
def c4BufferAudioFirst : List BufferedEntry :=
  [⟨StreamType.Audio, ⟨1, true⟩⟩, ⟨StreamType.Video, ⟨1, true⟩⟩,
   ⟨StreamType.Audio, ⟨3/2, true⟩⟩, ⟨StreamType.Video, ⟨3/2, false⟩⟩,
   ⟨StreamType.Audio, ⟨2, true⟩⟩, ⟨StreamType.Video, ⟨2, true⟩⟩]

/-- A state in the middle of a seek: only an Audio sink, one Audio
keyframe buffered at DTS 1, Audio horizon 2. -/
def seekingAudioState : PMState where
  seeking := true
  seekSegmentSet := fun _ => false
  seekSegmentVideoTime := 0
  bufferedPacketsTimestamp := fun _ => 2
  packets := [⟨StreamType.Audio, ⟨1, true⟩⟩]
  streams := audioOnlyStreams

/-- An idle state with only an Audio sink and Audio horizon 2. -/
def audioHorizonState : PMState where
  seeking := false
  seekSegmentSet := fun _ => false
  seekSegmentVideoTime := 0
  bufferedPacketsTimestamp := fun _ => 2
  packets := []
  streams := audioOnlyStreams

/-- A seeking state with both sinks in which the Audio stream has
already reported seek-segment resolution but the Video stream has
not. -/
def preResolvedSeekState : PMState where
  seeking := true
  seekSegmentSet := fun t =>
    match t with
    | StreamType.Audio => true
    | StreamType.Video => false
  seekSegmentVideoTime := 0
  bufferedPacketsTimestamp := fun _ => 0
  packets := []
  streams := bothStreams

/-! ## General lemmas about the loops -/

/-- Evaluation of `coeLt` on a coerced bound: compares the rationals. -/
lemma coeLt_coe (a q : ℚ) : coeLt a ((q : ℚ) : WithTop ℚ) = decide (a < q) := rfl

/-- Evaluation of `coeLt` on a finite bound: compares the rationals. -/
lemma coeLt_finiteTime (a q : ℚ) : coeLt a (finiteTime q) = decide (a < q) := rfl

/-- Evaluation of `coeLt` against the unbounded time: is always true. -/
lemma coeLt_top (a : ℚ) : coeLt a ⊤ = true := rfl

/-- Evaluation of `ltCoe` on a coerced bound: compares the rationals. -/
lemma ltCoe_coe (q a : ℚ) : ltCoe ((q : ℚ) : WithTop ℚ) a = decide (q < a) := rfl

/-- Evaluation of `ltCoe` on a finite bound: compares the rationals. -/
lemma ltCoe_finiteTime (q a : ℚ) : ltCoe (finiteTime q) a = decide (q < a) := rfl

/-- Evaluation of `ltCoe` with the unbounded time: on the left is always false. -/
lemma ltCoe_top (a : ℚ) : ltCoe ⊤ a = false := rfl

/-- The buffer left behind by the seek-end loop: the longest prefix of
entries that neither exceed the buffered time nor end the seek is
dropped, the rest is kept. -/
lemma checkSeekEnd_fst (streams : StreamType → Bool) (bt : WithTop ℚ) :
    ∀ l : List BufferedEntry,
      (checkSeekEndConditions streams bt l).1 =
        l.dropWhile (notDoneYet streams bt) := by
  intro l
  induction l with
  | nil => simp [checkSeekEndConditions, List.dropWhile]
  | cons e rest ih =>
    by_cases h1 : ltCoe bt e.packet.dts <;>
      by_cases h2 : seekDone streams e <;>
        simp [checkSeekEndConditions, List.dropWhile, notDoneYet, h1, h2, ih]

/-- The seeking flag after the seek-end loop: still `true` exactly when
the remaining buffer is empty or starts with an entry whose DTS exceeds
the buffered time. -/
lemma checkSeekEnd_snd (streams : StreamType → Bool) (bt : WithTop ℚ) :
    ∀ l : List BufferedEntry,
      (checkSeekEndConditions streams bt l).2 =
        stillSeekingAfter bt (l.dropWhile (notDoneYet streams bt)) := by
  intro l
  induction l with
  | nil => simp [checkSeekEndConditions, stillSeekingAfter, List.dropWhile]
  | cons e rest ih =>
    by_cases h1 : ltCoe bt e.packet.dts <;>
      by_cases h2 : seekDone streams e <;>
        simp [checkSeekEndConditions, List.dropWhile, notDoneYet,
          stillSeekingAfter, h1, h2, ih]

/-- The head of a `dropWhile` result fails the scanned predicate. -/
lemma dropWhile_head_not {α : Type _} (p : α → Bool) :
    ∀ (l : List α) (e : α) (rest : List α),
      l.dropWhile p = e :: rest → p e = false := by
  intro l
  induction l with
  | nil => intro e rest h; simp [List.dropWhile] at h
  | cons x xs ih =>
    intro e rest h
    rw [List.dropWhile_cons] at h
    by_cases hx : p x = true
    · rw [if_pos hx] at h
      exact ih e rest h
    · rw [if_neg hx] at h
      cases h
      simpa using hx

/-- When every buffered entry's stream has an attached sink, the
delivery loop with fuel the buffer length delivers exactly the longest
prefix of entries satisfying the append condition, keeps the rest, and
exits normally. -/
lemma appendPacketsLoop_all_registered (streams : StreamType → Bool)
    (pt : ℚ) (bt : WithTop ℚ) :
    ∀ l : List BufferedEntry, (∀ e ∈ l, streams e.type = true) →
      appendPacketsLoop streams pt bt l.length l =
        (l.takeWhile (shouldAppend pt bt),
         l.dropWhile (shouldAppend pt bt), false) := by
  intro l
  induction l with
  | nil => intro _; simp [appendPacketsLoop, List.takeWhile, List.dropWhile]
  | cons e rest ih =>
    intro hreg
    have he : streams e.type = true := hreg e (by simp)
    have hrest : ∀ x ∈ rest, streams x.type = true :=
      fun x hx => hreg x (by simp [hx])
    by_cases h : shouldAppend pt bt e <;>
      simp [appendPacketsLoop, List.takeWhile, List.dropWhile, h, he, ih hrest]

/-- The missing-sink branch of the delivery loop makes no progress:
when the top entry satisfies the append condition but its stream has no
attached sink, the loop re-examines the same entry until the fuel runs
out — nothing is delivered and nothing is removed, for every amount of
fuel.  (In the source this is an infinite loop: the error branch of
`AppendPackets` does not pop the entry.) -/
lemma appendPacketsLoop_stuck (streams : StreamType → Bool) (pt : ℚ)
    (bt : WithTop ℚ) (e : BufferedEntry) (l : List BufferedEntry)
    (hguard : shouldAppend pt bt e = true) (hmiss : streams e.type = false) :
    ∀ n : Nat, appendPacketsLoop streams pt bt n (e :: l) = ([], e :: l, true) := by
  intro n
  induction n with
  | zero => simp [appendPacketsLoop, hguard]
  | succ n ih => simp [appendPacketsLoop, hguard, hmiss, ih]

/-- Taking a `takeWhile` prefix preserves adjacent-pair chains. -/
lemma chain'_takeWhile {α : Type _} (R : α → α → Prop) (p : α → Bool) :
    ∀ l : List α, List.Chain' R l → List.Chain' R (l.takeWhile p) := by
  intro l
  induction l with
  | nil => intro _; simp [List.takeWhile]
  | cons x xs ih =>
    intro h
    rw [List.chain'_cons'] at h
    by_cases hx : p x
    · rw [List.takeWhile_cons, if_pos hx, List.chain'_cons']
      refine ⟨?_, ih h.2⟩
      intro y hy
      apply h.1
      cases xs with
      | nil => simp [List.takeWhile] at hy
      | cons z zs =>
        rw [List.takeWhile_cons] at hy
        by_cases hz : p z
        · rw [if_pos hz] at hy
          simp at hy
          simp [hy]
        · rw [if_neg hz] at hy
          simp at hy
    · rw [List.takeWhile_cons, if_neg hx]
      exact List.chain'_nil

/-! ## Claim theorems -/

/-- Claim C1, counterexample: with only an Audio sink attached, an
Audio entry with DTS 1 ≤ buffered time 2 but keyframe flag clear does
NOT complete the seek — `CheckSeekEndConditions` also tests
`IsKeyFrame()` on Audio packets, so the entry is popped and discarded
and `seeking_` stays `true`, contrary to the claim that an Audio entry
satisfies the completion predicate irrespective of its keyframe
flag. -/
theorem c1_counterexample :
    checkSeekEndConditions audioOnlyStreams (finiteTime 2)
      [⟨StreamType.Audio, ⟨1, false⟩⟩] = ([], true) := by
  decide

/-- Claim C1, amended: with only an Audio sink, the seek completes on
the first Audio entry reached with DTS ≤ buffered time WHOSE KEYFRAME
FLAG IS SET (the code checks the keyframe flag for Audio packets too;
the source merely notes that in practice all audio frames carry it):
every earlier entry with DTS ≤ buffered time that is not an Audio
keyframe is discarded, the completing entry and everything after it
remain, and the seeking flag is cleared. -/
theorem c1_amended (bt : WithTop ℚ) (pre rest : List BufferedEntry)
    (e : BufferedEntry)
    (hpre : ∀ x ∈ pre, ltCoe bt x.packet.dts = false ∧
      ¬(x.type = StreamType.Audio ∧ x.packet.isKeyFrame = true))
    (he1 : e.type = StreamType.Audio) (he2 : e.packet.isKeyFrame = true)
    (he3 : ltCoe bt e.packet.dts = false) :
    checkSeekEndConditions audioOnlyStreams bt (pre ++ e :: rest) =
      (e :: rest, false) := by
  induction pre with
  | nil =>
    simp [checkSeekEndConditions, seekDone, audioOnlyStreams, he1, he2, he3]
  | cons x pre' ih =>
    have hx := hpre x (by simp)
    have hdone : seekDone audioOnlyStreams x = false := by
      cases hxt : x.type with
      | Audio =>
        cases hk : x.packet.isKeyFrame with
        | true => exact absurd ⟨hxt, hk⟩ hx.2
        | false => simp [seekDone, audioOnlyStreams, hxt, hk]
      | Video => simp [seekDone, audioOnlyStreams, hxt]
    rw [List.cons_append]
    rw [show checkSeekEndConditions audioOnlyStreams bt
        (x :: (pre' ++ e :: rest)) =
        checkSeekEndConditions audioOnlyStreams bt (pre' ++ e :: rest) from by
      simp [checkSeekEndConditions, hx.1, hdone]]
    exact ih fun y hy => hpre y (by simp [hy])

/-- Claim C1 witness: an Audio non-keyframe at DTS 1 is discarded and
the seek completes on the Audio keyframe at DTS 2 (buffered time 3). -/
theorem c1_witness :
    checkSeekEndConditions audioOnlyStreams (finiteTime 3)
      [⟨StreamType.Audio, ⟨1, false⟩⟩, ⟨StreamType.Audio, ⟨2, true⟩⟩] =
      ([⟨StreamType.Audio, ⟨2, true⟩⟩], false) :=
  c1_amended (finiteTime 3) [⟨StreamType.Audio, ⟨1, false⟩⟩] []
    ⟨StreamType.Audio, ⟨2, true⟩⟩ (by decide) rfl rfl (by decide)

/-- Claim C4, counterexample: in the spec's scenario (both sinks,
Video at DTS 1.0 key / 1.5 / 2.0 key, Audio at 1.0 / 1.5 / 2.0,
buffered time 2.0) the seek does end, but the loop breaks WITHOUT
popping the satisfying Video keyframe: the DTS-1.0 Video entry is still
in the buffer afterwards — under either tie order at equal timestamps —
refuting the claim that the entries at DTS 1.0 of both streams are
removed and exactly the 1.5 and 2.0 entries remain. -/
theorem c4_counterexample :
    ((checkSeekEndConditions bothStreams (finiteTime 2)
        c4BufferVideoFirst).2 = false ∧
      (⟨StreamType.Video, ⟨1, true⟩⟩ : BufferedEntry) ∈
        (checkSeekEndConditions bothStreams (finiteTime 2)
          c4BufferVideoFirst).1) ∧
    ((checkSeekEndConditions bothStreams (finiteTime 2)
        c4BufferAudioFirst).2 = false ∧
      (⟨StreamType.Video, ⟨1, true⟩⟩ : BufferedEntry) ∈
        (checkSeekEndConditions bothStreams (finiteTime 2)
          c4BufferAudioFirst).1) := by
  have hlt : ¬((2 : ℚ) < 1) := by norm_num
  simp [checkSeekEndConditions, seekDone, bothStreams, ltCoe_finiteTime, hlt,
    c4BufferVideoFirst, c4BufferAudioFirst]

/-- Claim C4, amended: in the spec's scenario the seek ends at the
Video DTS-1.0 keyframe; only the entries scanned before that keyframe
are discarded (the Audio DTS-1.0 entry when it is ordered before the
keyframe, nothing when it is ordered after), and the Video DTS-1.0
keyframe itself together with all entries at DTS 1.5 and 2.0 remains in
the buffer. -/
theorem c4_amended :
    checkSeekEndConditions bothStreams (finiteTime 2)
        c4BufferVideoFirst = (c4BufferVideoFirst, false) ∧
    checkSeekEndConditions bothStreams (finiteTime 2)
        c4BufferAudioFirst =
      ([⟨StreamType.Video, ⟨1, true⟩⟩,
        ⟨StreamType.Audio, ⟨3/2, true⟩⟩, ⟨StreamType.Video, ⟨3/2, false⟩⟩,
        ⟨StreamType.Audio, ⟨2, true⟩⟩, ⟨StreamType.Video, ⟨2, true⟩⟩],
       false) := by
  have hlt : ¬((2 : ℚ) < 1) := by norm_num
  simp [checkSeekEndConditions, seekDone, bothStreams, ltCoe_finiteTime, hlt,
    c4BufferVideoFirst, c4BufferAudioFirst]

/-- Claim C6: for every sink assignment, buffered time and
ascending-ordered buffer, the seek-end check scans in ascending
timestamp order and (1) leaves behind exactly the longest scanned
suffix, discarding the prefix of entries that have DTS ≤ buffered time
and fail the completion predicate; (2) the buffer splits into that
discarded prefix followed by the kept suffix; (3) every discarded entry
had DTS ≤ buffered time and failed the predicate; (4) every discarded
entry precedes every kept entry in timestamp order; and (5) the seeking
flag is cleared exactly when the scan stopped on an entry that
satisfies the predicate with DTS ≤ buffered time — that entry and
everything after it remain; if instead the buffered time was reached
first (or the buffer ran out), the flag stays `true`. -/
theorem c6_seek_end_scan (streams : StreamType → Bool) (bt : WithTop ℚ)
    (buf : List BufferedEntry) (hsorted : List.Chain' dtsLE buf) :
    (checkSeekEndConditions streams bt buf).1 =
        buf.dropWhile (notDoneYet streams bt) ∧
    buf = buf.takeWhile (notDoneYet streams bt) ++
        (checkSeekEndConditions streams bt buf).1 ∧
    (∀ x ∈ buf.takeWhile (notDoneYet streams bt),
        ltCoe bt x.packet.dts = false ∧ seekDone streams x = false) ∧
    (∀ x ∈ buf.takeWhile (notDoneYet streams bt),
        ∀ y ∈ (checkSeekEndConditions streams bt buf).1, dtsLE x y) ∧
    ((checkSeekEndConditions streams bt buf).2 = false ↔
      ∃ e rest, (checkSeekEndConditions streams bt buf).1 = e :: rest ∧
        seekDone streams e = true ∧ ltCoe bt e.packet.dts = false) := by
  refine ⟨checkSeekEnd_fst streams bt buf, ?_, ?_, ?_, ?_⟩
  · rw [checkSeekEnd_fst]
    exact (List.takeWhile_append_dropWhile _ _).symm
  · intro x hx
    have hmem := List.mem_takeWhile_imp hx
    simpa [notDoneYet] using hmem
  · have hp : List.Pairwise dtsLE buf := List.chain'_iff_pairwise.mp hsorted
    rw [← List.takeWhile_append_dropWhile (notDoneYet streams bt) buf,
      List.pairwise_append] at hp
    intro x hx y hy
    rw [checkSeekEnd_fst] at hy
    exact hp.2.2 x hx y hy
  · rw [checkSeekEnd_snd, checkSeekEnd_fst]
    cases hdw : buf.dropWhile (notDoneYet streams bt) with
    | nil => simp [stillSeekingAfter]
    | cons e rest =>
      have hnd : notDoneYet streams bt e = false :=
        dropWhile_head_not _ buf e rest hdw
      simp only [stillSeekingAfter]
      constructor
      · intro hlt
        have hdone : seekDone streams e = true := by
          simpa [notDoneYet, hlt] using hnd
        exact ⟨e, rest, rfl, hdone, hlt⟩
      · rintro ⟨e', rest', heq, hdone, hlt⟩
        cases heq
        exact hlt

/-- Claim C6 witness: with both sinks and buffered time 2, the scan of
the ascending buffer [Audio@1, Video@1 key] discards the Audio entry
and stops on the Video keyframe. -/
theorem c6_witness :
    [(⟨StreamType.Audio, ⟨1, true⟩⟩ : BufferedEntry),
     ⟨StreamType.Video, ⟨1, true⟩⟩] =
      List.takeWhile (notDoneYet bothStreams (finiteTime 2))
        [⟨StreamType.Audio, ⟨1, true⟩⟩, ⟨StreamType.Video, ⟨1, true⟩⟩] ++
      (checkSeekEndConditions bothStreams (finiteTime 2)
        [⟨StreamType.Audio, ⟨1, true⟩⟩, ⟨StreamType.Video, ⟨1, true⟩⟩]).1 :=
  (c6_seek_end_scan bothStreams (finiteTime 2)
    [⟨StreamType.Audio, ⟨1, true⟩⟩, ⟨StreamType.Video, ⟨1, true⟩⟩]
    (by simp [List.chain'_cons, dtsLE])).2.1

/-- Claim C2: the claim is right about the intended behaviour but the
code does not implement it.  With only a Video sink attached and an
Audio entry at DTS 1 heading the buffer (both pacing conditions hold at
playback time 0, buffered time 10), the `AppendPackets` loop's
missing-sink branch logs an error but does NOT pop the entry, so for
every amount of fuel the loop ends by fuel exhaustion with nothing
delivered and the buffer unchanged: the entry is never dropped, and the
deliverable Video entry at DTS 2 behind it is never delivered — in the
source this is an infinite loop, not the claimed non-fatal
drop-and-continue. -/
theorem c2_missing_sink_entry_never_dropped :
    ∀ n : Nat,
      appendPacketsLoop videoOnlyStreams 0 (finiteTime 10) n
        [⟨StreamType.Audio, ⟨1, true⟩⟩, ⟨StreamType.Video, ⟨2, true⟩⟩] =
        ([], [⟨StreamType.Audio, ⟨1, true⟩⟩, ⟨StreamType.Video, ⟨2, true⟩⟩],
         true) :=
  fun n =>
    appendPacketsLoop_stuck videoOnlyStreams 0 (finiteTime 10)
      ⟨StreamType.Audio, ⟨1, true⟩⟩ [⟨StreamType.Video, ⟨2, true⟩⟩]
      (by simp only [shouldAppend, coeLt_finiteTime, kAppendPacketsThreshold]
          norm_num)
      (by decide) n

/-- Claim C3: `CheckSeekEndConditions` is bounded (it is structural
recursion on the buffer in this embedding), but `AppendPackets` is NOT
bounded for every buffer content and sink registration state: with only
an Audio sink attached and a Video entry at DTS 1 in the buffer
(pacing conditions hold at playback time 0, buffered time 5), no amount
of fuel completes the loop — it re-examines the same entry forever, so
the operation does not terminate, refuting the claim. -/
theorem c3_appendPackets_unbounded :
    ∀ n : Nat,
      appendPacketsLoop audioOnlyStreams 0 (finiteTime 5) n
        [⟨StreamType.Video, ⟨1, true⟩⟩] =
        ([], [⟨StreamType.Video, ⟨1, true⟩⟩], true) :=
  fun n =>
    appendPacketsLoop_stuck audioOnlyStreams 0 (finiteTime 5)
      ⟨StreamType.Video, ⟨1, true⟩⟩ []
      (by simp only [shouldAppend, coeLt_finiteTime, kAppendPacketsThreshold]
          norm_num)
      (by decide) n

/-- Claim C7: `UpdateBuffer` computes the global buffered time as the
minimum of the horizons of the streams with an attached sink, starting
from the unbounded value `⊤` (the model of
`std::numeric_limits<TimeTicks>::max()`): with both sinks it is the
minimum of the two horizons, with one sink that stream's horizon, and
with no sinks it stays `⊤`. -/
theorem c7_buffered_time_is_min (streams : StreamType → Bool)
    (h : StreamType → ℚ) :
    computeBufferedTime streams h =
      if streams StreamType.Video then
        if streams StreamType.Audio then
          ((min (h StreamType.Video) (h StreamType.Audio) : ℚ) : WithTop ℚ)
        else ((h StreamType.Video : ℚ) : WithTop ℚ)
      else
        if streams StreamType.Audio then ((h StreamType.Audio : ℚ) : WithTop ℚ)
        else ⊤ := by
  cases hV : streams StreamType.Video <;> cases hA : streams StreamType.Audio
  · simp [computeBufferedTime, hV, hA]
  · simp [computeBufferedTime, hV, hA, coeLt_top]
  · simp [computeBufferedTime, hV, hA, coeLt_top]
  · by_cases hlt : h StreamType.Audio < h StreamType.Video
    · simp [computeBufferedTime, hV, hA, coeLt_top, coeLt_coe, hlt,
        min_eq_right (le_of_lt hlt)]
    · simp [computeBufferedTime, hV, hA, coeLt_top, coeLt_coe, hlt,
        min_eq_left (not_lt.mp hlt)]

/-- Claim C8: when every buffered entry's stream has an attached sink
and the buffer is in ascending DTS order, the delivery loop delivers
exactly the longest prefix of entries satisfying both pacing conditions
(DTS within the lookahead window of the playback time, and DTS below
the buffered time), in ascending order, keeps the rest, and stops as
soon as a condition fails or the buffer empties. -/
theorem c8_pace_delivers_window (streams : StreamType → Bool)
    (pt : ℚ) (bt : WithTop ℚ) (buf : List BufferedEntry)
    (hreg : ∀ e ∈ buf, streams e.type = true)
    (hsorted : List.Chain' dtsLE buf) :
    appendPacketsLoop streams pt bt buf.length buf =
      (buf.takeWhile (shouldAppend pt bt),
       buf.dropWhile (shouldAppend pt bt), false) ∧
    List.Chain' dtsLE (buf.takeWhile (shouldAppend pt bt)) ∧
    (∀ x ∈ buf.takeWhile (shouldAppend pt bt), shouldAppend pt bt x = true) ∧
    (∀ y rest, buf.dropWhile (shouldAppend pt bt) = y :: rest →
      shouldAppend pt bt y = false) :=
  ⟨appendPacketsLoop_all_registered streams pt bt buf hreg,
   chain'_takeWhile dtsLE _ buf hsorted,
   fun _ hx => List.mem_takeWhile_imp hx,
   fun y rest h => dropWhile_head_not _ buf y rest h⟩

/-- Claim C8 witness: the spec's pacing scenario — entries at DTS 1, 2,
3, 5, playback time 0, buffered time 10, lookahead 4 — delivers the
entries at DTS 1, 2, 3 and withholds the entry at DTS 5. -/
theorem c8_witness :
    appendPacketsLoop audioOnlyStreams 0 (finiteTime 10) 4
      [⟨StreamType.Audio, ⟨1, true⟩⟩, ⟨StreamType.Audio, ⟨2, true⟩⟩,
       ⟨StreamType.Audio, ⟨3, true⟩⟩, ⟨StreamType.Audio, ⟨5, true⟩⟩] =
      ([⟨StreamType.Audio, ⟨1, true⟩⟩, ⟨StreamType.Audio, ⟨2, true⟩⟩,
        ⟨StreamType.Audio, ⟨3, true⟩⟩],
       [⟨StreamType.Audio, ⟨5, true⟩⟩], false) := by
  have h := (c8_pace_delivers_window audioOnlyStreams 0 (finiteTime 10)
    [⟨StreamType.Audio, ⟨1, true⟩⟩, ⟨StreamType.Audio, ⟨2, true⟩⟩,
     ⟨StreamType.Audio, ⟨3, true⟩⟩, ⟨StreamType.Audio, ⟨5, true⟩⟩]
    (by decide) (by norm_num [List.chain'_cons, dtsLE])).1
  refine h.trans ?_
  have h1 : (1 : ℚ) - 0 < 4 := by norm_num
  have h2 : (2 : ℚ) - 0 < 4 := by norm_num
  have h3 : (3 : ℚ) - 0 < 4 := by norm_num
  have h5 : ¬((5 : ℚ) - 0 < 4) := by norm_num
  have hb1 : (1 : ℚ) < 10 := by norm_num
  have hb2 : (2 : ℚ) < 10 := by norm_num
  have hb3 : (3 : ℚ) < 10 := by norm_num
  simp [List.takeWhile_cons, List.dropWhile_cons, shouldAppend,
    coeLt_finiteTime, kAppendPacketsThreshold, h1, h2, h3, h5, hb1, hb2, hb3]
  norm_num

/-- Operation `OnSeekData` never modifies the horizons. -/
lemma onSeekData_horizon (s : PMState) (ty : StreamType) (t : ℚ)
    (f : StreamType → ℚ → ℚ × ℚ) :
    ((onSeekData s ty t f).1).bufferedPacketsTimestamp =
      s.bufferedPacketsTimestamp := by
  by_cases h1 : s.streams StreamType.Audio = true ∧ ty = StreamType.Audio
  · simp only [onSeekData, if_pos h1]
    split_ifs <;> rfl
  · by_cases h2 : s.streams StreamType.Video = true ∧ ty = StreamType.Video
    · simp only [onSeekData, if_neg h1, if_pos h2]
      split_ifs <;> rfl
    · simp only [onSeekData, if_neg h1, if_neg h2]

/-- Operation `UpdateBuffer` never modifies the horizons. -/
lemma updateBuffer_horizon (s : PMState) (pt : ℚ) :
    ((updateBuffer s pt).1).bufferedPacketsTimestamp =
      s.bufferedPacketsTimestamp := rfl

/-- Claim C5, counterexample: the horizon is assigned the DTS of every
accepted packet unconditionally, so when an Audio packet at DTS 5 is
followed by one at DTS 3 (an out-of-order arrival, which nothing in the
code prevents), the Audio horizon DECREASES across an `OnEsPacket`
step — not a `PrepareForSeek` — refuting unconditional monotonicity. -/
theorem c5_counterexample :
    ((step (step (step initialState (Op.setStream StreamType.Audio true)).1
          (Op.onEsPacket StreamType.Audio ⟨5, true⟩ false)).1
        (Op.onEsPacket StreamType.Audio ⟨3, true⟩ false)).1).bufferedPacketsTimestamp
        StreamType.Audio <
      ((step (step initialState (Op.setStream StreamType.Audio true)).1
          (Op.onEsPacket StreamType.Audio ⟨5, true⟩ false)).1).bufferedPacketsTimestamp
        StreamType.Audio := by
  decide

/-- Claim C5, amended: a stream's horizon is monotonically
non-decreasing across every operation other than `PrepareForSeek`
PROVIDED each accepted packet's DTS is at least the stream's current
horizon (i.e. packets arrive in non-decreasing DTS order per stream);
`PrepareForSeek` resets every horizon to zero. -/
theorem c5_horizon_monotone (s : PMState) (op : Op)
    (harr : ∀ t p b, op = Op.onEsPacket t p b →
      s.bufferedPacketsTimestamp t ≤ p.dts) :
    ((∀ q, op ≠ Op.prepareForSeek q) →
      ∀ ty, s.bufferedPacketsTimestamp ty ≤
        ((step s op).1).bufferedPacketsTimestamp ty) ∧
    (∀ q ty,
      ((step s (Op.prepareForSeek q)).1).bufferedPacketsTimestamp ty = 0) := by
  constructor
  · intro hne ty
    cases op with
    | prepareForSeek q => exact absurd rfl (hne q)
    | onEsPacket t p b =>
      by_cases hs : s.streams t = false
      · simp [step, onEsPacket, hs]
      · by_cases hb : b = true
        · simp [step, onEsPacket, hs, hb]
        · have hle := harr t p b rfl
          by_cases hty : ty = t
          · subst hty
            simp [step, onEsPacket, hs, hb, hle]
          · simp [step, onEsPacket, hs, hb, hty]
    | onSeekData t q f =>
      simp [step, onSeekData_horizon]
    | updateBuffer pt =>
      simp [step, updateBuffer_horizon]
    | setStream t b =>
      simp [step, setStream]
  · intro q ty
    rfl

/-- Claim C5 witness: an in-order Audio packet at DTS 7 does not lower
the Audio horizon 2, and `PrepareForSeek` zeroes the horizons. -/
theorem c5_witness :
    audioHorizonState.bufferedPacketsTimestamp StreamType.Audio ≤
      ((step audioHorizonState
          (Op.onEsPacket StreamType.Audio ⟨7, true⟩ false)).1).bufferedPacketsTimestamp
        StreamType.Audio ∧
    ((step audioHorizonState
        (Op.prepareForSeek 3)).1).bufferedPacketsTimestamp StreamType.Audio = 0 :=
  ⟨(c5_horizon_monotone audioHorizonState
      (Op.onEsPacket StreamType.Audio ⟨7, true⟩ false)
      (by intro t p b heq
          injection heq with ht hp hb
          subst ht
          subst hp
          decide)).1
    (fun q h => Op.noConfusion h) StreamType.Audio,
   (c5_horizon_monotone audioHorizonState
      (Op.onEsPacket StreamType.Audio ⟨7, true⟩ false)
      (by intro t p b heq
          injection heq with ht hp hb
          subst ht
          subst hp
          decide)).2 3 StreamType.Audio⟩

/-- Claim C9: in any state with the seeking flag raised, the only
operation that can deliver packets to sinks is an `UpdateBuffer` call
whose embedded seek-end check itself clears the flag (detects a
satisfying keyframe); every other step delivers nothing while seeking
holds. -/
theorem c9_no_delivery_while_seeking (s : PMState) (op : Op)
    (hseek : s.seeking = true) (hdel : (step s op).2 ≠ []) :
    ∃ pt, op = Op.updateBuffer pt ∧
      (checkSeekEndConditions s.streams
        (computeBufferedTime s.streams s.bufferedPacketsTimestamp)
        s.packets).2 = false := by
  cases op with
  | prepareForSeek q => simp [step] at hdel
  | onEsPacket t p b => simp [step] at hdel
  | onSeekData t q f => simp [step] at hdel
  | setStream t b => simp [step] at hdel
  | updateBuffer pt =>
    refine ⟨pt, rfl, ?_⟩
    by_cases hflag : (checkSeekEndConditions s.streams
        (computeBufferedTime s.streams s.bufferedPacketsTimestamp)
        s.packets).2 = true
    · exfalso
      apply hdel
      simp [step, updateBuffer, hseek, hflag]
    · simpa using hflag

/-- Claim C9 witness: from a seeking state whose buffered Audio
keyframe completes the seek, the `UpdateBuffer` step does deliver a
packet, and indeed its seek-end check reports completion. -/
theorem c9_witness :
    seekingAudioState.seeking = true ∧
    (checkSeekEndConditions seekingAudioState.streams
      (computeBufferedTime seekingAudioState.streams
        seekingAudioState.bufferedPacketsTimestamp)
      seekingAudioState.packets).2 = false :=
  ⟨rfl,
   (c9_no_delivery_while_seeking seekingAudioState (Op.updateBuffer 0) rfl
      (by
        have h14 : (1 : ℚ) < 4 := by norm_num
        have e1 : ltCoe 2 1 = false := by decide
        have e2 : coeLt 1 2 = true := by decide
        simp [step, updateBuffer, seekingAudioState, audioOnlyStreams,
          computeBufferedTime, checkSeekEndConditions, appendPacketsLoop,
          shouldAppend, seekDone, coeLt_top,
          kAppendPacketsThreshold, h14, e1, e2])).elim
    fun pt h => h.2⟩

/-- Claim C10: `OnSeekData` defers the Audio segment lookup behind
Video resolution whenever a Video sink is attached: the lookup happens
exactly when an Audio sink is attached and both per-stream resolution
flags are set (after the call), and the time it passes to the Audio
sink is the stored Video resolved segment start time, not the time the
call carried; with no Video sink attached, the lookup (when performed)
uses the call's own requested time. -/
theorem c10_audio_alignment (s : PMState) (ty : StreamType) (t : ℚ)
    (f : StreamType → ℚ → ℚ × ℚ) :
    (s.streams StreamType.Video = true →
      (((onSeekData s ty t f).2 ≠ none) ↔
        (s.streams StreamType.Audio = true ∧
         ((onSeekData s ty t f).1).seekSegmentSet StreamType.Audio = true ∧
         ((onSeekData s ty t f).1).seekSegmentSet StreamType.Video = true)) ∧
      (∀ x, (onSeekData s ty t f).2 = some x →
        x = ((onSeekData s ty t f).1).seekSegmentVideoTime)) ∧
    (s.streams StreamType.Video = false →
      ∀ x, (onSeekData s ty t f).2 = some x → x = t) := by
  constructor
  · intro hV
    cases ty with
    | Audio =>
      cases hA : s.streams StreamType.Audio with
      | false => simp [onSeekData, hA, hV]
      | true =>
        cases hVset : s.seekSegmentSet StreamType.Video with
        | false => simp [onSeekData, hA, hV, hVset]
        | true => simp [onSeekData, hA, hV, hVset]
    | Video =>
      cases hAset : s.seekSegmentSet StreamType.Audio with
      | false => simp [onSeekData, hV, hAset]
      | true =>
        cases hA : s.streams StreamType.Audio with
        | false => simp [onSeekData, hV, hA, hAset]
        | true => simp [onSeekData, hV, hA, hAset]
  · intro hV x hsome
    cases ty with
    | Audio =>
      cases hA : s.streams StreamType.Audio with
      | false => simp [onSeekData, hA, hV] at hsome
      | true =>
        cases hAset : s.seekSegmentSet StreamType.Audio <;>
          simp [onSeekData, hA, hV, hAset] at hsome <;>
            exact hsome.symm
    | Video => simp [onSeekData, hV] at hsome

/-- Claim C10 witness: with both sinks attached and Audio already
resolved, the Video resolution call (requested time 7, resolved segment
start 5) triggers the Audio lookup at the stored Video segment start
time 5. -/
theorem c10_witness :
    preResolvedSeekState.streams StreamType.Video = true ∧
    (5 : ℚ) =
      ((onSeekData preResolvedSeekState StreamType.Video 7
        (fun _ _ => (5, 2))).1).seekSegmentVideoTime :=
  ⟨rfl,
   ((c10_audio_alignment preResolvedSeekState StreamType.Video 7
      (fun _ _ => (5, 2))).1 rfl).2 5 rfl⟩

end PacketsManager
